import Mathlib

/-!
# v4l2 TCP streaming: transfer loops, YUYV blit and process set-up

A shallow embedding of `src/v4l2_capture_client.c` and `src/v4l2_capture_server.c`.

Conventions of the embedding

* C `int` values are `Int`, and `int` is 32 bits wide.  Signed overflow is
  undefined in C; the `int` expression that can leave the range of `int`, the
  byte index into the received frame, wraps in two's complement (`to_int`) after
  each operation, as the compiled code does.  The other `int` sums of
  `display_frame` are converted to `unsigned` right away, so they are reduced
  modulo `2^32` (`to_u32`), which gives the same value whether or not the sum
  wrapped.
* Every place where C converts to an unsigned type reduces modulo the width of
  that type.
* `size_t` is 64 bits wide (`SIZE_MOD`), `unsigned`/`__u32` is 32 bits wide
  (`U32_MOD`), `long` is wide enough to hold every `__u32` value.
* The results of the system calls are inputs of the model.
-/

namespace V4l2Stream

/-! ## Reliable transfer loops -/

/-- Number of values of a `size_t`. -/
def SIZE_MOD : Nat := 2 ^ 64

/-- The statement `len -= n` for `size_t len` and `int n`: `n` is converted to
`size_t` and the subtraction is unsigned. -/
def size_sub (len : Nat) (n : Int) : Nat := (((len : Int) - n) % (SIZE_MOD : Int)).toNat

/-- What a transfer loop has done when it returns: its return value, the number
of `send`/`recv` calls it issued, and the total by which the cursor `p` was
advanced. -/
structure Transfer where
  ret : Int
  calls : Nat
  moved : Int
deriving DecidableEq

/-- The loop of `send_all` (client, lines 20-31).  The list holds the values
assigned to `int sent` by the successive `send` calls; `none` means the loop is
still running when the list is used up. -/
def send_all_loop : List Int → Nat → Nat → Int → Option Transfer
  | [], len, calls, moved =>
    if len > 0 then none else some ⟨0, calls, moved⟩
  | sent :: rest, len, calls, moved =>
    if len > 0 then
      if sent < 0 then some ⟨-1, calls + 1, moved⟩
      else send_all_loop rest (size_sub len sent) (calls + 1) (moved + sent)
    else some ⟨0, calls, moved⟩

/-- The function `send_all(sock, data, len)` of the client. -/
def send_all (len : Nat) (results : List Int) : Option Transfer :=
  send_all_loop results len 0 0

/-- The loop of `recv_all` (server, lines 80-89).  The list holds the values
assigned to `int received` by the successive `recv` calls. -/
def recv_all_loop : List Int → Nat → Nat → Int → Option Transfer
  | [], len, calls, moved =>
    if len > 0 then none else some ⟨0, calls, moved⟩
  | received :: rest, len, calls, moved =>
    if len > 0 then
      if received ≤ 0 then some ⟨-1, calls + 1, moved⟩
      else recv_all_loop rest (size_sub len received) (calls + 1) (moved + received)
    else some ⟨0, calls, moved⟩

/-- The function `recv_all(sock, data, len)` of the server. -/
def recv_all (len : Nat) (results : List Int) : Option Transfer :=
  recv_all_loop results len 0 0

/-- Every result that a `send_all` of `len` bytes consumes is negative or lies
between 1 and the number of bytes still to send. -/
def admissible : Nat → List Int → Bool
  | _, [] => true
  | len, r :: rs =>
    len = 0 || r < 0 || (1 ≤ r && r ≤ (len : Int) && admissible (len - r.toNat) rs)

/-- Every positive result that a `recv_all` of `len` bytes consumes is at most the
number of bytes requested in that call (the remaining length). -/
def within_request : Nat → List Int → Bool
  | _, [] => true
  | len, r :: rs =>
    len = 0 || r ≤ 0 || (r ≤ (len : Int) && within_request (len - r.toNat) rs)

/-! ## Colour conversion and blit (server, `display_frame`) -/

/-- Number of values of an `unsigned` / `__u32`. -/
def U32_MOD : Nat := 4294967296

/-- Conversion of an `int` to `unsigned`. -/
def to_u32 (i : Int) : Nat := (i % (U32_MOD : Int)).toNat

/-- An `int` result, wrapped to 32 bits in two's complement. -/
def to_int (v : Int) : Int := (v + 2147483648) % 4294967296 - 2147483648

/-- The `int` expression `(y * width + x) * 2 + k` that indexes `data` (lines
32-35), each operation wrapped to `int`. -/
def index (width y x k : Int) : Int :=
  to_int (to_int (to_int (to_int (y * width) + x) * 2) + k)

/-- The fields of `struct fb_var_screeninfo` that the program reads (each a
`__u32`). -/
structure fb_var_screeninfo where
  xres : Nat
  yres : Nat
  bits_per_pixel : Nat
deriving DecidableEq

/-- The memory reached through `uint16_t *fbp`: the cell `*(fbp + i)` for each
index `i`. -/
abbrev Surface := Nat → Nat

/-- The memory reached through `uint8_t *data`: the byte `data[i]`. -/
abbrev Frame := Int → Nat

/-- Load of the `uint8_t` at `data[i]`. -/
def load (data : Frame) (i : Int) : Int := ((data i % 256 : Nat) : Int)

/-- The assignment `*(fbp + location) = pixel`. -/
def store (fbp : Surface) (location : Nat) (pixel : Nat) : Surface :=
  fun i => if i = location then pixel else fbp i

/-- The clamp `v < 0 ? 0 : (v > 255 ? 255 : v)` (lines 55-60). -/
def clamp (v : Int) : Int := if v < 0 then 0 else (if v > 255 then 255 else v)

/-- Red before clamping, `(298 * C + 409 * E + 128) >> 8` (lines 45, 50). -/
def red (C E : Int) : Int := (298 * C + 409 * E + 128) >>> (8 : Nat)

/-- Green before clamping, `(298 * C - 100 * D - 208 * E + 128) >> 8` (lines 46, 51). -/
def green (C D E : Int) : Int := (298 * C - 100 * D - 208 * E + 128) >>> (8 : Nat)

/-- Blue before clamping, `(298 * C + 516 * D + 128) >> 8` (lines 47, 52). -/
def blue (C D : Int) : Int := (298 * C + 516 * D + 128) >>> (8 : Nat)

/-- The clamped channel values `(R, G, B)` of one pixel from its luma byte and
the chroma bytes of its pair (lines 39-60). -/
def channels (Y U V : Int) : Int × Int × Int :=
  let C := Y - 16
  let D := U - 128
  let E := V - 128
  (clamp (red C E), clamp (green C D E), clamp (blue C D))

/-- The packing `((R & 0xF8) << 8) | ((G & 0xFC) << 3) | (B >> 3)` stored in a
`uint16_t` (lines 64-65).  The operands are clamped, hence not negative. -/
def rgb565 (R G B : Int) : Nat :=
  (((R.toNat &&& 0xF8) <<< 8) ||| ((G.toNat &&& 0xFC) <<< 3) ||| (B.toNat >>> 3)) % 65536

/-- The word written for one pixel. -/
def pixel (Y U V : Int) : Nat :=
  let c := channels Y U V
  rgb565 c.1 c.2.1 c.2.2

/-- The offset `(vinfo.xres - width) / 2` (line 24): `width` is converted to
`unsigned`, subtraction and division are unsigned, and the quotient, below
`2^31`, is stored in an `int`. -/
def x_offset (vinfo : fb_var_screeninfo) (width : Int) : Int :=
  ((to_u32 ((vinfo.xres : Int) - (to_u32 width : Int)) / 2 : Nat) : Int)

/-- The offset `(vinfo.yres - height) / 2` (line 25). -/
def y_offset (vinfo : fb_var_screeninfo) (height : Int) : Int :=
  ((to_u32 ((vinfo.yres : Int) - (to_u32 height : Int)) / 2 : Nat) : Int)

/-- The index `(x + x_offset) + (y + y_offset) * vinfo.xres` (line 68): the
product and the sum are taken in `unsigned`, the result is stored in a `long`. -/
def location1 (vinfo : fb_var_screeninfo) (xo yo x y : Int) : Nat :=
  (to_u32 (x + xo) + (to_u32 (y + yo) * vinfo.xres) % U32_MOD) % U32_MOD

/-- The index `(x + x_offset + 1) + (y + y_offset) * vinfo.xres` (line 69). -/
def location2 (vinfo : fb_var_screeninfo) (xo yo x y : Int) : Nat :=
  (to_u32 (x + xo + 1) + (to_u32 (y + yo) * vinfo.xres) % U32_MOD) % U32_MOD

/-- State of a run of `display_frame`: the surface, and a record of the byte
indices read from `data` and of the (index, word) pairs written through `fbp`,
in program order. -/
structure Blit where
  fbp : Surface
  reads : List Int
  writes : List (Nat × Nat)

/-- One iteration of the inner loop (lines 32-71) at row `y`, column `x`. -/
def blit_pair (vinfo : fb_var_screeninfo) (data : Frame) (width xo yo : Int)
    (st : Blit) (y x : Int) : Blit :=
  let Y1 := load data (index width y x 0)
  let U := load data (index width y x 1)
  let Y2 := load data (index width y x 2)
  let V := load data (index width y x 3)
  let pixel1 := pixel Y1 U V
  let pixel2 := pixel Y2 U V
  let l1 := location1 vinfo xo yo x y
  let l2 := location2 vinfo xo yo x y
  { fbp := store (store st.fbp l1 pixel1) l2 pixel2
    reads := st.reads ++ [index width y x 0, index width y x 1,
      index width y x 2, index width y x 3]
    writes := st.writes ++ [(l1, pixel1), (l2, pixel2)] }

/-- The values taken by `x` in `for (int x = 0; x < width; x += 2)`. -/
def x_steps (width : Int) : List Int :=
  (List.range ((width + 1) / 2).toNat).map (fun (k : Nat) => 2 * (k : Int))

/-- The values taken by `y` in `for (int y = 0; y < height; ++y)`. -/
def y_steps (height : Int) : List Int :=
  (List.range height.toNat).map (fun (k : Nat) => (k : Int))

/-- The function `display_frame(fbp, data, width, height)` of the server, run
with the global `vinfo`. -/
def display_frame (vinfo : fb_var_screeninfo) (fbp : Surface) (data : Frame)
    (width height : Int) : Blit :=
  let xo := x_offset vinfo width
  let yo := y_offset vinfo height
  (y_steps height).foldl
    (fun st y => (x_steps width).foldl (fun st x => blit_pair vinfo data width xo yo st y x) st)
    ⟨fbp, [], []⟩

/-- Stated from the specification: truncation of the channels to 5, 6 and 5
bits, packed as red (bits 15-11), green (bits 10-5), blue (bits 4-0). -/
def spec_pack (R G B : Nat) : Nat :=
  ((R >>> 3) <<< 11) ||| ((G >>> 2) <<< 5) ||| (B >>> 3)

/-- Stated from the specification: `clamp0_255`. -/
def clamp0_255 (v : Int) : Nat := if v < 0 then 0 else if 255 < v then 255 else v.toNat

/-- Stated from the specification: the packed word of a pixel with luma byte `Y`
and chroma bytes `U`, `V`, with `>> 8` read as the floor of the division by 256. -/
def spec_word (Y U V : Nat) : Nat :=
  let luma : Int := (Y : Int) - 16
  let chromaU : Int := (U : Int) - 128
  let chromaV : Int := (V : Int) - 128
  spec_pack
    (clamp0_255 ((298 * luma + 409 * chromaV + 128) / 256))
    (clamp0_255 ((298 * luma - 100 * chromaU - 208 * chromaV + 128) / 256))
    (clamp0_255 ((298 * luma + 516 * chromaU + 128) / 256))

/-- The surface after the writes of a list of (index, word) pairs, in order. -/
def apply_writes (fbp : Surface) (ws : List (Nat × Nat)) : Surface :=
  ws.foldl (fun f p => store f p.1 p.2) fbp

/-- The word that `display_frame` computes for the source pixel `(x, y)`: from
the luma byte of the pixel (byte 0 or 2 of its 4-byte group) and the chroma
bytes 1 and 3 of the group, read at the indices the code computes. -/
def pixel_at (data : Frame) (width x y : Int) : Nat :=
  pixel (load data (index width y (x - x % 2) (2 * (x % 2))))
    (load data (index width y (x - x % 2) 1))
    (load data (index width y (x - x % 2) 3))

/-- The surface index `(x + x_off) + (y + y_off) * xres` of the source pixel
`(x, y)` for the centring offsets `x_off = (xres - width) / 2` and
`y_off = (yres - height) / 2`. -/
def cell (vinfo : fb_var_screeninfo) (width height x y : Nat) : Nat :=
  (x + (vinfo.xres - width) / 2) + (y + (vinfo.yres - height) / 2) * vinfo.xres

/-- The byte indices read in the iteration at `(x, y)`. -/
def pair_reads (width y x : Int) : List Int :=
  [index width y x 0, index width y x 1, index width y x 2, index width y x 3]

/-- The two writes of the iteration at `(x, y)`. -/
def pair_writes (vinfo : fb_var_screeninfo) (data : Frame) (width xo yo y x : Int) :
    List (Nat × Nat) :=
  [(location1 vinfo xo yo x y,
      pixel (load data (index width y x 0)) (load data (index width y x 1))
        (load data (index width y x 3))),
   (location2 vinfo xo yo x y,
      pixel (load data (index width y x 2)) (load data (index width y x 1))
        (load data (index width y x 3)))]

/-! ## Process set-up and shutdown (`main` of the server and of the client) -/

/-- The resources a process acquires: the framebuffer descriptor `fb_fd`, the
mapping `fbp`, the heap buffer `buffer`, the sockets `listen_sock`, `client_sock`
and `sock_fd`, and the capture descriptor `v4l2_fd`. -/
inductive Resource
  | fb_fd
  | fbp
  | buffer
  | listen_sock
  | client_sock
  | sock_fd
  | v4l2_fd
deriving DecidableEq

/-- Ledger of a process: the resources acquired and the releases performed
(`close`, `munmap`, `free`), each in program order. -/
structure Proc where
  acquired : List Resource
  released : List Resource
deriving DecidableEq

/-- A successful `open`, `mmap`, `malloc` or `socket`. -/
def acquire (r : Resource) (p : Proc) : Proc := { p with acquired := p.acquired ++ [r] }

/-- A `close`, `munmap` or `free`. -/
def release (r : Resource) (p : Proc) : Proc := { p with released := p.released ++ [r] }

/-- How far `main` gets: it returns a status, or it is still inside its loop. -/
inductive Outcome
  | returned (code : Int) (p : Proc)
  | running (p : Proc)
deriving DecidableEq

/-- Every acquired resource has been released exactly once, and nothing else
has been released. -/
def released_exactly_once (p : Proc) : Bool :=
  p.acquired.all (fun r => p.released.count r = 1) &&
    p.released.all (fun r => r ∈ p.acquired)

/-- The acquired resources that have not been released. -/
def leaked (p : Proc) : List Resource :=
  p.acquired.filter (fun r => p.released.count r = 0)

/-- Results of the calls of the server's `main` before its loop: whether each
call succeeds, and the geometry that `ioctl(FBIOGET_VSCREENINFO)` stores in
`vinfo` (`none` when the call fails). -/
structure ServerEnv where
  open_ok : Bool
  ioctl_vinfo : Option fb_var_screeninfo
  mmap_ok : Bool
  malloc_ok : Bool
  socket_ok : Bool
  bind_ok : Bool
  listen_ok : Bool

/-- The size `vinfo.xres * vinfo.yres * vinfo.bits_per_pixel / 8` passed to
`mmap` (server, line 112), computed in `unsigned`. -/
def screensize (vinfo : fb_var_screeninfo) : Nat :=
  ((vinfo.xres * vinfo.yres) % U32_MOD * vinfo.bits_per_pixel) % U32_MOD / 8

/-- The server's `main` (lines 93-190) up to its accept loop.  The loop is
`while (1)` without `break` or `return`, so once it is entered `main` does not
return and the shutdown code after it (lines 184-189) is not reached. -/
def server_main (env : ServerEnv) : Outcome :=
  let p0 : Proc := ⟨[], []⟩
  if !env.open_ok then .returned 1 p0
  else
    let p1 := acquire .fb_fd p0
    match env.ioctl_vinfo with
    | none => .returned 1 (release .fb_fd p1)
    | some _ =>
      if !env.mmap_ok then .returned 1 (release .fb_fd p1)
      else
        let p2 := acquire .fbp p1
        if !env.malloc_ok then .returned 1 (release .fb_fd (release .fbp p2))
        else
          let p3 := acquire .buffer p2
          if !env.socket_ok then .returned (-1) p3
          else
            let p4 := acquire .listen_sock p3
            if !env.bind_ok then .returned (-1) p4
            else if !env.listen_ok then .returned (-1) p4
            else .running p4

/-- Results of the calls of the client's `main`: the argument count, whether
each set-up call succeeds, the `sizeimage` left in `fmt` by a successful
`ioctl(VIDIOC_S_FMT)`, and for each iteration of the loop the value returned by
`read` and the results of the `send` calls of that iteration. -/
structure ClientEnv where
  argc : Nat
  socket_ok : Bool
  inet_pton_ok : Bool
  connect_ok : Bool
  open_ok : Bool
  ioctl_sizeimage : Option Nat
  malloc_ok : Bool
  frames : List (Int × List Int)

/-- The capture-and-send loop of the client (lines 105-119): `true` when the
loop is left by `break`, `false` when it is still running after the given
iterations. -/
def client_loop : List (Int × List Int) → Nat → Bool
  | [], _ => false
  | (ret, sends) :: rest, frame_size =>
    if ret = -1 then true
    else
      match send_all frame_size sends with
      | none => false
      | some t => if t.ret = -1 then true else client_loop rest frame_size

/-- The client's `main` (lines 34-128). -/
def client_main (env : ClientEnv) : Outcome :=
  let p0 : Proc := ⟨[], []⟩
  if env.argc < 2 then .returned (-1) p0
  else if !env.socket_ok then .returned (-1) p0
  else
    let p1 := acquire .sock_fd p0
    if !env.inet_pton_ok then .returned (-1) (release .sock_fd p1)
    else if !env.connect_ok then .returned (-1) (release .sock_fd p1)
    else if !env.open_ok then .returned 1 (release .sock_fd p1)
    else
      let p2 := acquire .v4l2_fd p1
      match env.ioctl_sizeimage with
      | none => .returned 1 (release .sock_fd (release .v4l2_fd p2))
      | some frame_size =>
        if !env.malloc_ok then .returned 1 (release .sock_fd (release .v4l2_fd p2))
        else
          let p3 := acquire .buffer p2
          if client_loop env.frames frame_size then
            .returned 0 (release .v4l2_fd (release .buffer (release .sock_fd p3)))
          else .running p3

/-! ## Theorems: transfer loops -/

theorem size_sub_of_le (len : Nat) (n : Int) (h0 : 0 ≤ n) (h1 : n ≤ len) (hlen : len < SIZE_MOD) :
    size_sub len n = len - n.toNat := by
  unfold size_sub
  unfold SIZE_MOD at *
  have h2 : ((len : Int) - n) % ((2 ^ 64 : Nat) : Int) = (len : Int) - n := by
    apply Int.emod_eq_of_lt <;> omega
  rw [h2]
  omega

theorem take_sum_step (x : Int) (rest : List Int) (a b : Nat) (h : b + 1 ≤ a) :
    ((x :: rest).take (a - b)).sum = x + (rest.take (a - (b + 1))).sum := by
  have e : a - b = (a - (b + 1)) + 1 := by omega
  rw [e, List.take_succ_cons, List.sum_cons]

theorem send_all_loop_spec (rs : List Int) :
    ∀ (len calls : Nat) (moved : Int), len < SIZE_MOD → admissible len rs = true →
      len ≤ rs.length →
      ∃ r, send_all_loop rs len calls moved = some r ∧
        calls ≤ r.calls ∧ r.calls ≤ calls + len ∧
        ((r.ret = 0 ∧ r.moved = moved + len ∧ (rs.take (r.calls - calls)).sum = len) ∨
         (r.ret = -1 ∧ calls < r.calls ∧ moved ≤ r.moved ∧ r.moved < moved + len ∧
            r.moved = moved + (rs.take (r.calls - calls - 1)).sum)) := by
  induction rs with
  | nil =>
    intro len calls moved _ _ hl
    have : len = 0 := by simpa using hl
    subst this
    exact ⟨⟨0, calls, moved⟩, by simp [send_all_loop], le_refl _, by simp, Or.inl (by simp)⟩
  | cons sent rest ih =>
    intro len calls moved hN hadm hl
    by_cases h0 : len = 0
    · subst h0
      exact ⟨⟨0, calls, moved⟩, by simp [send_all_loop], le_refl _, by simp, Or.inl (by simp)⟩
    · have hpos : len > 0 := Nat.pos_of_ne_zero h0
      by_cases hneg : sent < 0
      · refine ⟨⟨-1, calls + 1, moved⟩, by simp [send_all_loop, hpos, hneg], by simp, ?_, Or.inr ?_⟩
        · show calls + 1 ≤ calls + len
          omega
        · refine ⟨rfl, by simp, le_refl _, ?_, by simp⟩
          show moved < moved + (len : Int)
          omega
      · simp only [admissible, h0, hneg, decide_False, Bool.false_or, Bool.and_eq_true,
          decide_eq_true_eq] at hadm
        obtain ⟨⟨h1, h2⟩, h3⟩ := hadm
        have hsub : size_sub len sent = len - sent.toNat :=
          size_sub_of_le len sent (by omega) h2 hN
        have hl2 : rest.length + 1 = (sent :: rest).length := by simp
        obtain ⟨r, hr, hc1, hc2, hcase⟩ :=
          ih (len - sent.toNat) (calls + 1) (moved + sent) (by omega) h3 (by omega)
        refine ⟨r, by simp [send_all_loop, hpos, hneg, hsub, hr], by omega, by omega, ?_⟩
        rcases hcase with ⟨e1, e2, e3⟩ | ⟨e1, e2, e3, e4, e5⟩
        · refine Or.inl ⟨e1, ?_, ?_⟩
          · rw [e2]; omega
          · rw [take_sum_step sent rest r.calls calls hc1, e3]; omega
        · refine Or.inr ⟨e1, by omega, by omega, ?_, ?_⟩
          · have : ((len - sent.toNat : Nat) : Int) = len - sent := by omega
            omega
          · have e : r.calls - calls - 1 = (r.calls - 1) - calls := by omega
            rw [e, take_sum_step sent rest (r.calls - 1) calls (by omega), e5]
            have e6 : r.calls - (calls + 1) - 1 = r.calls - 1 - (calls + 1) := by omega
            rw [e6]; omega

/-- C1. For every length `N` (a `size_t`) and every sequence of results of the
`send` calls (at least `N` of them are given) in which each consumed result is
negative or between 1 and the number of bytes still remaining, `send_all`
terminates, within `N` calls: it returns either 0,
having advanced its cursor by exactly `N`, the sum of the results it consumed,
or -1, having advanced by fewer than `N`; it never returns 0 with fewer than `N`
bytes transferred. -/
theorem C1_send_all_transfers_exactly (N : Nat) (results : List Int)
    (hN : N < SIZE_MOD) (hadm : admissible N results = true) (hlen : N ≤ results.length) :
    ∃ r, send_all N results = some r ∧ r.calls ≤ N ∧
      ((r.ret = 0 ∧ r.moved = N ∧ (results.take r.calls).sum = N) ∨
       (r.ret = -1 ∧ r.moved < N ∧ 0 ≤ r.moved ∧
          r.moved = (results.take (r.calls - 1)).sum)) ∧
      (r.ret = 0 → r.moved = N) := by
  obtain ⟨r, hr, _, hc, hcase⟩ := send_all_loop_spec results N 0 0 hN hadm hlen
  refine ⟨r, hr, by omega, ?_, ?_⟩
  · rcases hcase with ⟨e1, e2, e3⟩ | ⟨e1, _, e3, e4, e5⟩
    · exact Or.inl ⟨e1, by simpa using e2, by simpa using e3⟩
    · exact Or.inr ⟨e1, by simpa using e4, e3, by simpa using e5⟩
  · intro h
    rcases hcase with ⟨_, e2, _⟩ | ⟨e1, _⟩
    · simpa using e2
    · rw [h] at e1; exact absurd e1 (by decide)

theorem C1_send_all_transfers_exactly_witness :
    admissible 3 [2, 1, 7] = true ∧
    ∃ r, send_all 3 [2, 1, 7] = some r ∧ r.calls ≤ 3 ∧
      ((r.ret = 0 ∧ r.moved = (3 : Nat) ∧ (([2, 1, 7] : List Int).take r.calls).sum = (3 : Nat)) ∨
       (r.ret = -1 ∧ r.moved < (3 : Nat) ∧ 0 ≤ r.moved ∧
          r.moved = (([2, 1, 7] : List Int).take (r.calls - 1)).sum)) ∧
      (r.ret = 0 → r.moved = (3 : Nat)) :=
  ⟨by decide, C1_send_all_transfers_exactly 3 [2, 1, 7] (by decide) (by decide) (by decide)⟩

theorem recv_all_loop_returns (rs : List Int) :
    ∀ (len calls : Nat) (moved : Int), (∃ x ∈ rs, x ≤ 0) →
      ∃ r, recv_all_loop rs len calls moved = some r := by
  induction rs with
  | nil => intro _ _ _ h; simp at h
  | cons x rest ih =>
    intro len calls moved h
    by_cases h0 : len > 0
    · by_cases hx : x ≤ 0
      · exact ⟨⟨-1, calls + 1, moved⟩, by simp [recv_all_loop, h0, hx]⟩
      · have h2 : ∃ y ∈ rest, y ≤ 0 := by
          obtain ⟨y, hy, hy0⟩ := h
          rcases List.mem_cons.mp hy with e | e
          · exact absurd (e ▸ hy0) hx
          · exact ⟨y, e, hy0⟩
        obtain ⟨r, hr⟩ := ih (size_sub len x) (calls + 1) (moved + x) h2
        exact ⟨r, by simp [recv_all_loop, h0, hx, hr]⟩
    · exact ⟨⟨0, calls, moved⟩, by simp [recv_all_loop, h0]⟩

theorem recv_all_loop_spec (rs : List Int) :
    ∀ (len calls : Nat) (moved : Int) (r : Transfer),
      recv_all_loop rs len calls moved = some r →
      calls ≤ r.calls ∧ r.calls ≤ calls + rs.length ∧ (0 < len → calls < r.calls) ∧
      (∀ i x, rs[i]? = some x → i < r.calls - calls → x ≤ 0 →
          r.ret = -1 ∧ r.calls = calls + i + 1) ∧
      (r.ret = 0 →
          r.moved = moved + (rs.take (r.calls - calls)).sum ∧
          (within_request len rs = true → len < SIZE_MOD →
            (rs.take (r.calls - calls)).sum = len)) := by
  induction rs with
  | nil =>
    intro len calls moved r h
    by_cases h0 : len > 0
    · simp [recv_all_loop, h0] at h
    · simp only [recv_all_loop, h0, if_false, Option.some.injEq] at h
      subst h
      have : len = 0 := by omega
      subst this
      simp
  | cons x rest ih =>
    intro len calls moved r h
    by_cases h0 : len > 0
    · by_cases hx : x ≤ 0
      · simp only [recv_all_loop, h0, hx, if_true, Option.some.injEq] at h
        subst h
        refine ⟨by simp, by simp, by simp, ?_, by simp⟩
        intro i y hy hi _
        have : i = 0 := by simp at hi; omega
        subst this
        simp
      · simp only [recv_all_loop, h0, hx, if_true, if_false] at h
        obtain ⟨c1, c2, _, c4, c5⟩ := ih _ _ _ r h
        have hlen : (x :: rest).length = rest.length + 1 := by simp
        refine ⟨by omega, by omega, by omega, ?_, ?_⟩
        · intro i y hy hi hy0
          cases i with
          | zero =>
            simp at hy
            exact absurd (hy ▸ hy0) hx
          | succ j =>
            simp at hy
            obtain ⟨e1, e2⟩ := c4 j y hy (by omega) hy0
            exact ⟨e1, by omega⟩
        · intro hret
          obtain ⟨d1, d2⟩ := c5 hret
          rw [take_sum_step x rest r.calls calls c1]
          refine ⟨by rw [d1]; omega, ?_⟩
          intro hw hN
          have hne : len ≠ 0 := by omega
          simp only [within_request, hne, hx, decide_False, Bool.false_or, Bool.and_eq_true,
            decide_eq_true_eq] at hw
          obtain ⟨w1, w2⟩ := hw
          have hsub : size_sub len x = len - x.toNat :=
            size_sub_of_le len x (by omega) w1 hN
          rw [hsub] at d2
          have := d2 w2 (by omega)
          omega
    · simp only [recv_all_loop, h0, if_false, Option.some.injEq] at h
      subst h
      have : len = 0 := by omega
      subst this
      simp

/-- C2. For every length `N > 0` and every sequence of results of the `recv`
calls: `recv_all` returns as soon as a result is 0 or negative; a call that
yields 0 or a negative value makes it return -1 at that call, which is its last;
it returns 0 only when every result it consumed was positive, and then the
cursor advance is the sum of those results, equal to `N` when no call reported
more bytes than it was asked for. -/
theorem C2_recv_all_peer_closed (N : Nat) (results : List Int)
    (h0 : 0 < N) (hN : N < SIZE_MOD) :
    ((∃ x ∈ results, x ≤ 0) → ∃ r, recv_all N results = some r) ∧
    ∀ r, recv_all N results = some r →
      1 ≤ r.calls ∧ r.calls ≤ results.length ∧
      (∀ i x, results[i]? = some x → i < r.calls → x ≤ 0 →
          r.ret = -1 ∧ r.calls = i + 1) ∧
      (r.ret = 0 →
          (∀ i x, results[i]? = some x → i < r.calls → 0 < x) ∧
          r.moved = (results.take r.calls).sum ∧
          (within_request N results = true → (results.take r.calls).sum = N)) := by
  refine ⟨recv_all_loop_returns results N 0 0, ?_⟩
  intro r hr
  obtain ⟨_, c2, c3, c4, c5⟩ := recv_all_loop_spec results N 0 0 r hr
  refine ⟨c3 h0, by omega, ?_, ?_⟩
  · intro i x hx hi hx0
    obtain ⟨e1, e2⟩ := c4 i x hx (by omega) hx0
    exact ⟨e1, by omega⟩
  · intro hret
    obtain ⟨d1, d2⟩ := c5 hret
    refine ⟨?_, by simpa using d1, fun hw => by simpa using d2 hw hN⟩
    intro i x hx hi
    by_contra hneg
    obtain ⟨e1, _⟩ := c4 i x hx (by omega) (by omega)
    rw [hret] at e1
    exact absurd e1 (by decide)

theorem C2_recv_all_peer_closed_witness :
    recv_all 4 [3, 0, 1] = some ⟨-1, 2, 3⟩ ∧
    (((∃ x ∈ ([3, 0, 1] : List Int), x ≤ 0) → ∃ r, recv_all 4 [3, 0, 1] = some r) ∧
    ∀ r, recv_all 4 [3, 0, 1] = some r →
      1 ≤ r.calls ∧ r.calls ≤ ([3, 0, 1] : List Int).length ∧
      (∀ i x, ([3, 0, 1] : List Int)[i]? = some x → i < r.calls → x ≤ 0 →
          r.ret = -1 ∧ r.calls = i + 1) ∧
      (r.ret = 0 →
          (∀ i x, ([3, 0, 1] : List Int)[i]? = some x → i < r.calls → 0 < x) ∧
          r.moved = (([3, 0, 1] : List Int).take r.calls).sum ∧
          (within_request 4 [3, 0, 1] = true →
            (([3, 0, 1] : List Int).take r.calls).sum = (4 : Nat)))) :=
  ⟨by decide, C2_recv_all_peer_closed 4 [3, 0, 1] (by decide) (by decide)⟩

/-! ## Theorems: the blit routine -/

theorem blit_pair_eq (vinfo : fb_var_screeninfo) (data : Frame) (width xo yo : Int)
    (st : Blit) (y x : Int) :
    blit_pair vinfo data width xo yo st y x =
      ⟨apply_writes st.fbp (pair_writes vinfo data width xo yo y x),
       st.reads ++ pair_reads width y x,
       st.writes ++ pair_writes vinfo data width xo yo y x⟩ := rfl

theorem apply_writes_append (fbp : Surface) (a b : List (Nat × Nat)) :
    apply_writes fbp (a ++ b) = apply_writes (apply_writes fbp a) b := by
  simp [apply_writes, List.foldl_append]

theorem foldl_log {α : Type} (W : α → List (Nat × Nat)) (R : α → List Int)
    (f : Blit → α → Blit)
    (hf : ∀ st a, f st a = ⟨apply_writes st.fbp (W a), st.reads ++ R a, st.writes ++ W a⟩)
    (l : List α) :
    ∀ st : Blit, l.foldl f st =
      ⟨apply_writes st.fbp (l.flatMap W), st.reads ++ l.flatMap R, st.writes ++ l.flatMap W⟩ := by
  induction l with
  | nil => intro st; simp [apply_writes]
  | cons a t ih =>
    intro st
    rw [List.foldl_cons, ih, hf]
    simp [apply_writes_append, List.flatMap_cons, List.append_assoc]

/-- All writes of a run, in program order. -/
theorem display_frame_eq (vinfo : fb_var_screeninfo) (fbp : Surface) (data : Frame)
    (width height : Int) :
    display_frame vinfo fbp data width height =
      ⟨apply_writes fbp ((y_steps height).flatMap fun y => (x_steps width).flatMap fun x =>
          pair_writes vinfo data width (x_offset vinfo width) (y_offset vinfo height) y x),
       (y_steps height).flatMap (fun y => (x_steps width).flatMap fun x => pair_reads width y x),
       (y_steps height).flatMap fun y => (x_steps width).flatMap fun x =>
          pair_writes vinfo data width (x_offset vinfo width) (y_offset vinfo height) y x⟩ := by
  unfold display_frame
  simp only []
  rw [foldl_log
    (fun y => (x_steps width).flatMap fun x =>
          pair_writes vinfo data width (x_offset vinfo width) (y_offset vinfo height) y x)
    (fun y => (x_steps width).flatMap fun x => pair_reads width y x)]
  · simp
  · intro st y
    rw [foldl_log (fun x =>
          pair_writes vinfo data width (x_offset vinfo width) (y_offset vinfo height) y x)
        (fun x => pair_reads width y x)]
    intro st x
    exact blit_pair_eq _ _ _ _ _ _ _ _
theorem grid_bound (X Y xres yres : Nat) (hX : X < xres) (hY : Y < yres) :
    X + Y * xres < xres * yres := by
  have h : (Y + 1) * xres ≤ yres * xres := Nat.mul_le_mul_right _ hY
  rw [Nat.add_mul, Nat.one_mul, Nat.mul_comm yres xres] at h
  omega

theorem grid_inj (X Y X2 Y2 xres : Nat) (hX : X < xres) (hX2 : X2 < xres)
    (h : X + Y * xres = X2 + Y2 * xres) : X = X2 ∧ Y = Y2 := by
  have h1 : (X + Y * xres) % xres = X := by
    rw [Nat.add_mul_mod_self_right, Nat.mod_eq_of_lt hX]
  have h2 : (X2 + Y2 * xres) % xres = X2 := by
    rw [Nat.add_mul_mod_self_right, Nat.mod_eq_of_lt hX2]
  have hXX : X = X2 := by rw [← h1, ← h2, h]
  subst hXX
  have hpos : 0 < xres := by omega
  have h3 : Y * xres = Y2 * xres := by omega
  exact ⟨rfl, Nat.eq_of_mul_eq_mul_right hpos h3⟩

theorem dims_small (vinfo : fb_var_screeninfo) (width height x y : Nat)
    (hxw : x < width) (hyh : y < height)
    (hw : width ≤ vinfo.xres) (hh : height ≤ vinfo.yres)
    (hsz : vinfo.xres * vinfo.yres < 2 ^ 31) :
    vinfo.xres < 2 ^ 31 ∧ vinfo.yres < 2 ^ 31 := by
  have h1 : vinfo.xres ≤ vinfo.xres * vinfo.yres := Nat.le_mul_of_pos_right _ (by omega)
  have h2 : vinfo.yres ≤ vinfo.xres * vinfo.yres := Nat.le_mul_of_pos_left _ (by omega)
  omega

theorem x_offset_eq (vinfo : fb_var_screeninfo) (width : Nat)
    (hw : width ≤ vinfo.xres) (hx : vinfo.xres < 2 ^ 31) :
    x_offset vinfo (width : Int) = (((vinfo.xres - width) / 2 : Nat) : Int) := by
  unfold x_offset to_u32 U32_MOD
  omega

theorem y_offset_eq (vinfo : fb_var_screeninfo) (height : Nat)
    (hh : height ≤ vinfo.yres) (hy : vinfo.yres < 2 ^ 31) :
    y_offset vinfo (height : Int) = (((vinfo.yres - height) / 2 : Nat) : Int) := by
  unfold y_offset to_u32 U32_MOD
  omega

theorem location_eq (vinfo : fb_var_screeninfo) (width height x y : Nat) (d : Int)
    (hd : d = 0 ∨ d = 1) (hxw : x + d.toNat < width) (hyh : y < height)
    (hw : width ≤ vinfo.xres) (hh : height ≤ vinfo.yres)
    (hsz : vinfo.xres * vinfo.yres < 2 ^ 31) :
    (to_u32 ((x : Int) + x_offset vinfo width + d)
        + (to_u32 ((y : Int) + y_offset vinfo height) * vinfo.xres) % U32_MOD) % U32_MOD
      = cell vinfo width height (x + d.toNat) y := by
  obtain ⟨hx31, hy31⟩ := dims_small vinfo width height x y (by omega) hyh hw hh hsz
  rw [x_offset_eq vinfo width hw hx31, y_offset_eq vinfo height hh hy31]
  have e1 : to_u32 ((x : Int) + (((vinfo.xres - width) / 2 : Nat) : Int) + d)
      = x + d.toNat + (vinfo.xres - width) / 2 := by
    unfold to_u32 U32_MOD
    omega
  have e2 : to_u32 ((y : Int) + (((vinfo.yres - height) / 2 : Nat) : Int))
      = y + (vinfo.yres - height) / 2 := by
    unfold to_u32 U32_MOD
    omega
  rw [e1, e2]
  have hb := grid_bound (x + d.toNat + (vinfo.xres - width) / 2)
    (y + (vinfo.yres - height) / 2) vinfo.xres vinfo.yres (by omega) (by omega)
  have hM : U32_MOD = 4294967296 := rfl
  have h1 : (y + (vinfo.yres - height) / 2) * vinfo.xres < U32_MOD := by omega
  rw [Nat.mod_eq_of_lt h1]
  have h2 : x + d.toNat + (vinfo.xres - width) / 2
      + (y + (vinfo.yres - height) / 2) * vinfo.xres < U32_MOD := by omega
  rw [Nat.mod_eq_of_lt h2]
  rfl

theorem location1_eq (vinfo : fb_var_screeninfo) (width height x y : Nat)
    (hxw : x < width) (hyh : y < height)
    (hw : width ≤ vinfo.xres) (hh : height ≤ vinfo.yres)
    (hsz : vinfo.xres * vinfo.yres < 2 ^ 31) :
    location1 vinfo (x_offset vinfo width) (y_offset vinfo height) x y
      = cell vinfo width height x y := by
  have h := location_eq vinfo width height x y 0 (Or.inl rfl) (by simpa using hxw) hyh hw hh hsz
  simpa [location1] using h

theorem location2_eq (vinfo : fb_var_screeninfo) (width height x y : Nat)
    (hxw : x + 1 < width) (hyh : y < height)
    (hw : width ≤ vinfo.xres) (hh : height ≤ vinfo.yres)
    (hsz : vinfo.xres * vinfo.yres < 2 ^ 31) :
    location2 vinfo (x_offset vinfo width) (y_offset vinfo height) x y
      = cell vinfo width height (x + 1) y := by
  have h := location_eq vinfo width height x y 1 (Or.inr rfl) (by simpa using hxw) hyh hw hh hsz
  simpa [location2] using h

theorem mem_x_steps (width x : Int) :
    x ∈ x_steps width ↔ ∃ k : Nat, x = 2 * (k : Int) ∧ 2 * (k : Int) < width := by
  unfold x_steps
  rw [List.mem_map]
  constructor
  · rintro ⟨k, hk, rfl⟩
    rw [List.mem_range] at hk
    exact ⟨k, rfl, by omega⟩
  · rintro ⟨k, rfl, hk⟩
    exact ⟨k, List.mem_range.mpr (by omega), rfl⟩

theorem mem_y_steps (height y : Int) :
    y ∈ y_steps height ↔ ∃ k : Nat, y = (k : Int) ∧ (k : Int) < height := by
  unfold y_steps
  rw [List.mem_map]
  constructor
  · rintro ⟨k, hk, rfl⟩
    rw [List.mem_range] at hk
    exact ⟨k, rfl, by omega⟩
  · rintro ⟨k, rfl, hk⟩
    exact ⟨k, List.mem_range.mpr (by omega), rfl⟩

theorem pair_writes_eq (vinfo : fb_var_screeninfo) (data : Frame) (width xo yo : Int)
    (k y : Nat) :
    pair_writes vinfo data width xo yo (y : Int) (2 * (k : Int)) =
      [(location1 vinfo xo yo ((2 * k : Nat) : Int) y,
          pixel_at data width ((2 * k : Nat) : Int) y),
       (location2 vinfo xo yo ((2 * k : Nat) : Int) y,
          pixel_at data width ((2 * k + 1 : Nat) : Int) y)] := by
  have e0 : ((2 * k : Nat) : Int) = 2 * (k : Int) := by push_cast; rfl
  have e1 : ((2 * k + 1 : Nat) : Int) = 2 * (k : Int) + 1 := by push_cast; rfl
  have a1 : (2 * (k : Int)) - (2 * (k : Int)) % 2 = 2 * (k : Int) := by omega
  have a2 : (2 * (k : Int) + 1) - (2 * (k : Int) + 1) % 2 = 2 * (k : Int) := by omega
  have b1 : 2 * ((2 * (k : Int)) % 2) = 0 := by omega
  have b2 : 2 * ((2 * (k : Int) + 1) % 2) = 2 := by omega
  unfold pair_writes pixel_at
  rw [e0, e1, a1, a2, b1, b2]

theorem mem_writes_iff (vinfo : fb_var_screeninfo) (fbp : Surface) (data : Frame)
    (width height : Nat) (hev : width % 2 = 0)
    (hw : width ≤ vinfo.xres) (hh : height ≤ vinfo.yres)
    (hsz : vinfo.xres * vinfo.yres < 2 ^ 31) (p : Nat × Nat) :
    p ∈ (display_frame vinfo fbp data width height).writes ↔
      ∃ x y : Nat, x < width ∧ y < height ∧
        p = (cell vinfo width height x y, pixel_at data width x y) := by
  rw [display_frame_eq]
  simp only [List.mem_flatMap, mem_x_steps, mem_y_steps]
  constructor
  · rintro ⟨_, ⟨y, rfl, hy⟩, _, ⟨k, rfl, hk⟩, hp⟩
    have hy2 : y < height := by omega
    have hk2 : 2 * k + 1 < width := by omega
    rw [pair_writes_eq, location1_eq vinfo width height (2 * k) y (by omega) hy2 hw hh hsz,
      location2_eq vinfo width height (2 * k) y hk2 hy2 hw hh hsz] at hp
    simp only [List.mem_cons, List.mem_singleton, List.not_mem_nil, or_false] at hp
    rcases hp with hp | hp
    · exact ⟨2 * k, y, by omega, hy2, hp⟩
    · exact ⟨2 * k + 1, y, hk2, hy2, hp⟩
  · rintro ⟨x, y, hx, hy, rfl⟩
    refine ⟨(y : Int), ⟨y, rfl, by omega⟩, 2 * ((x / 2 : Nat) : Int), ⟨x / 2, rfl, by omega⟩, ?_⟩
    have hk2 : 2 * (x / 2) + 1 < width := by omega
    rw [pair_writes_eq, location1_eq vinfo width height (2 * (x / 2)) y (by omega) hy hw hh hsz,
      location2_eq vinfo width height (2 * (x / 2)) y hk2 hy hw hh hsz]
    simp only [List.mem_cons, List.mem_singleton, List.not_mem_nil, or_false]
    rcases Nat.mod_two_eq_zero_or_one x with h | h
    · left
      have : 2 * (x / 2) = x := by omega
      rw [this]
    · right
      have : 2 * (x / 2) + 1 = x := by omega
      rw [this]

theorem apply_writes_of_not_mem (ws : List (Nat × Nat)) :
    ∀ (fbp : Surface) (i : Nat), (∀ p ∈ ws, p.1 ≠ i) → apply_writes fbp ws i = fbp i := by
  induction ws with
  | nil => intro fbp i _; rfl
  | cons q t ih =>
    intro fbp i h
    have hq : q.1 ≠ i := h q (List.mem_cons_self _ _)
    have ht : ∀ p ∈ t, p.1 ≠ i := fun p hp => h p (List.mem_cons_of_mem _ hp)
    show apply_writes (store fbp q.1 q.2) t i = fbp i
    rw [ih _ i ht]
    unfold store
    rw [if_neg (fun e => hq e.symm)]

theorem apply_writes_of_mem (ws : List (Nat × Nat)) :
    ∀ (fbp : Surface) (i v : Nat), (i, v) ∈ ws → (∀ p ∈ ws, p.1 = i → p.2 = v) →
      apply_writes fbp ws i = v := by
  induction ws with
  | nil => intro fbp i v h; simp at h
  | cons q t ih =>
    intro fbp i v hmem hdet
    have ht : ∀ p ∈ t, p.1 = i → p.2 = v := fun p hp => hdet p (List.mem_cons_of_mem _ hp)
    show apply_writes (store fbp q.1 q.2) t i = v
    by_cases hex : ∃ p ∈ t, p.1 = i
    · obtain ⟨p, hp, hpi⟩ := hex
      have hv : p.2 = v := ht p hp hpi
      have hp2 : (i, v) ∈ t := by
        have : p = (i, v) := Prod.ext hpi hv
        rw [← this]; exact hp
      exact ih _ i v hp2 ht
    · have hno : ∀ p ∈ t, p.1 ≠ i := fun p hp e => hex ⟨p, hp, e⟩
      rw [apply_writes_of_not_mem t _ i hno]
      rcases List.mem_cons.mp hmem with e | e
      · rw [← e]
        simp [store]
      · exact absurd rfl (hno _ e)

/-- The surface after a run: every source pixel's cell holds the word computed
for that pixel. -/
theorem display_frame_cell (vinfo : fb_var_screeninfo) (fbp : Surface) (data : Frame)
    (width height : Nat) (hev : width % 2 = 0)
    (hw : width ≤ vinfo.xres) (hh : height ≤ vinfo.yres)
    (hsz : vinfo.xres * vinfo.yres < 2 ^ 31) (x y : Nat) (hx : x < width) (hy : y < height) :
    (display_frame vinfo fbp data width height).fbp (cell vinfo width height x y)
      = pixel_at data width x y := by
  have hmem := mem_writes_iff vinfo fbp data width height hev hw hh hsz
  have hfb : (display_frame vinfo fbp data width height).fbp
      = apply_writes fbp (display_frame vinfo fbp data width height).writes := by
    rw [display_frame_eq]
  rw [hfb]
  apply apply_writes_of_mem
  · exact (hmem _).mpr ⟨x, y, hx, hy, rfl⟩
  · intro p hp hpi
    obtain ⟨x2, y2, hx2, hy2, rfl⟩ := (hmem p).mp hp
    simp only [cell] at hpi
    have hinj := grid_inj _ _ _ _ vinfo.xres (by omega) (by omega) hpi
    obtain ⟨e1, e2⟩ := hinj
    have ex : x2 = x := by omega
    have ey : y2 = y := by omega
    rw [ex, ey]

/-- The surface after a run: a cell that is no source pixel's cell is unchanged. -/
theorem display_frame_frame (vinfo : fb_var_screeninfo) (fbp : Surface) (data : Frame)
    (width height : Nat) (hev : width % 2 = 0)
    (hw : width ≤ vinfo.xres) (hh : height ≤ vinfo.yres)
    (hsz : vinfo.xres * vinfo.yres < 2 ^ 31) (i : Nat)
    (hi : ∀ x y : Nat, x < width → y < height → i ≠ cell vinfo width height x y) :
    (display_frame vinfo fbp data width height).fbp i = fbp i := by
  have hmem := mem_writes_iff vinfo fbp data width height hev hw hh hsz
  have hfb : (display_frame vinfo fbp data width height).fbp
      = apply_writes fbp (display_frame vinfo fbp data width height).writes := by
    rw [display_frame_eq]
  rw [hfb]
  apply apply_writes_of_not_mem
  intro p hp e
  obtain ⟨x2, y2, hx2, hy2, rfl⟩ := (hmem p).mp hp
  exact hi x2 y2 hx2 hy2 e.symm

theorem clamp_toNat (v : Int) : (clamp v).toNat = clamp0_255 v := by
  unfold clamp clamp0_255
  split_ifs <;> rfl

theorem clamp0_255_lt (v : Int) : clamp0_255 v < 256 := by
  unfold clamp0_255
  split_ifs <;> omega

set_option maxRecDepth 100000 in
theorem red_bits : ∀ r < 256, ((r &&& 0xF8) <<< 8) = ((r >>> 3) <<< 11)
    ∧ ((r >>> 3) <<< 11) < 2 ^ 16 := by decide

set_option maxRecDepth 100000 in
theorem green_bits : ∀ g < 256, ((g &&& 0xFC) <<< 3) = ((g >>> 2) <<< 5)
    ∧ ((g >>> 2) <<< 5) < 2 ^ 16 := by decide

set_option maxRecDepth 100000 in
theorem blue_bits : ∀ b < 256, (b >>> 3) < 2 ^ 16 := by decide

theorem pack_eq (R G B : Nat) (hR : R < 256) (hG : G < 256) (hB : B < 256) :
    (((R &&& 0xF8) <<< 8) ||| ((G &&& 0xFC) <<< 3) ||| (B >>> 3)) % 65536 = spec_pack R G B := by
  obtain ⟨r1, r2⟩ := red_bits R hR
  obtain ⟨g1, g2⟩ := green_bits G hG
  have b2 := blue_bits B hB
  rw [r1, g1]
  have hlt : ((R >>> 3) <<< 11) ||| ((G >>> 2) <<< 5) ||| (B >>> 3) < 2 ^ 16 :=
    Nat.or_lt_two_pow (Nat.or_lt_two_pow r2 g2) b2
  rw [Nat.mod_eq_of_lt (by simpa using hlt)]
  rfl

theorem shift8 (v : Int) : v >>> (8 : Nat) = v / 256 := by
  rw [Int.shiftRight_eq_div_pow]
  norm_num

/-- The word computed by the code is the word of the specification. -/
theorem pixel_eq_spec (Y U V : Nat) : pixel (Y : Int) (U : Int) (V : Int) = spec_word Y U V := by
  unfold pixel channels rgb565 red green blue spec_word
  simp only [shift8, clamp_toNat]
  exact pack_eq _ _ _ (clamp0_255_lt _) (clamp0_255_lt _) (clamp0_255_lt _)

theorem to_int_of_range (v : Int) (h1 : -2147483648 ≤ v) (h2 : v < 2147483648) :
    to_int v = v := by
  unfold to_int
  omega

theorem index_eq (width height y x0 : Nat) (k : Int) (hk0 : 0 ≤ k) (hk3 : k ≤ 3)
    (hy : y < height) (hx : x0 + 2 ≤ width) (hrd : width * height * 2 ≤ 2 ^ 31) :
    index (width : Int) (y : Int) (x0 : Int) k = ((y : Int) * width + x0) * 2 + k := by
  have h1 : width * (y + 1) ≤ width * height := Nat.mul_le_mul_left _ hy
  rw [Nat.mul_add, Nat.mul_one, Nat.mul_comm width y] at h1
  have hN : (y * width + x0) * 2 + 4 ≤ 2 ^ 31 := by omega
  have hZ : ((y : Int) * width + x0) * 2 + 4 ≤ 2 ^ 31 := by exact_mod_cast hN
  have hP : (0 : Int) ≤ (y : Int) * (width : Int) := by positivity
  have hx0 : (0 : Int) ≤ (x0 : Int) := by positivity
  unfold index
  rw [to_int_of_range ((y : Int) * width) (by omega) (by omega),
    to_int_of_range ((y : Int) * width + x0) (by omega) (by omega),
    to_int_of_range (((y : Int) * width + x0) * 2) (by omega) (by omega),
    to_int_of_range (((y : Int) * width + x0) * 2 + k) (by omega) (by omega)]

theorem pixel_at_eq_spec (data : Frame) (width height x y : Nat) (hev : width % 2 = 0)
    (hx : x < width) (hy : y < height) (hrd : width * height * 2 ≤ 2 ^ 31) :
    pixel_at data width x y =
      spec_word (data (((y : Int) * width + x) * 2) % 256)
        (data (((y : Int) * width + ((x : Int) - (x : Int) % 2)) * 2 + 1) % 256)
        (data (((y : Int) * width + ((x : Int) - (x : Int) % 2)) * 2 + 3) % 256) := by
  have e : (x : Int) - (x : Int) % 2 = ((x - x % 2 : Nat) : Int) := by omega
  have hx0 : x - x % 2 + 2 ≤ width := by omega
  have i0 := index_eq width height y (x - x % 2) (2 * ((x : Int) % 2)) (by omega) (by omega)
    hy hx0 hrd
  have i1 := index_eq width height y (x - x % 2) 1 (by omega) (by omega) hy hx0 hrd
  have i3 := index_eq width height y (x - x % 2) 3 (by omega) (by omega) hy hx0 hrd
  have e0 : ((y : Int) * width + ((x - x % 2 : Nat) : Int)) * 2 + 2 * ((x : Int) % 2)
      = ((y : Int) * width + x) * 2 := by omega
  unfold pixel_at load
  rw [e, i0, i1, i3, e0]
  exact pixel_eq_spec _ _ _

theorem to_int_lt (v : Int) : to_int v < 2147483648 := by
  unfold to_int
  omega

theorem length_flatMap_const {α β : Type} (l : List α) (f : α → List β) (c : Nat)
    (h : ∀ a, (f a).length = c) : (l.flatMap f).length = l.length * c := by
  induction l with
  | nil => simp
  | cons a t ih =>
    rw [List.flatMap_cons, List.length_append, ih, h, List.length_cons]
    ring

theorem writes_length (vinfo : fb_var_screeninfo) (fbp : Surface) (data : Frame)
    (width height : Int) :
    (display_frame vinfo fbp data width height).writes.length
      = height.toNat * (((width + 1) / 2).toNat * 2) := by
  rw [display_frame_eq]
  show (List.flatMap _ _).length = _
  rw [length_flatMap_const _ _ (((width + 1) / 2).toNat * 2)]
  · simp [y_steps]
  · intro y
    rw [length_flatMap_const _ _ 2]
    · simp [x_steps]
    · intro x
      rfl

theorem writes_length_even (vinfo : fb_var_screeninfo) (fbp : Surface) (data : Frame)
    (width height : Nat) (hev : width % 2 = 0) :
    (display_frame vinfo fbp data width height).writes.length = width * height := by
  rw [writes_length]
  have e1 : ((height : Int)).toNat = height := by omega
  have e2 : ((((width : Int) + 1) / 2).toNat * 2) = width := by omega
  rw [e1, e2, Nat.mul_comm]

theorem mem_reads_iff (vinfo : fb_var_screeninfo) (fbp : Surface) (data : Frame)
    (width height : Int) (i : Int) :
    i ∈ (display_frame vinfo fbp data width height).reads ↔
      ∃ y k : Nat, (y : Int) < height ∧ 2 * (k : Int) < width ∧
        i ∈ pair_reads width y (2 * (k : Int)) := by
  rw [display_frame_eq]
  simp only [List.mem_flatMap, mem_x_steps, mem_y_steps]
  constructor
  · rintro ⟨_, ⟨y, rfl, hy⟩, _, ⟨k, rfl, hk⟩, hp⟩
    exact ⟨y, k, hy, hk, hp⟩
  · rintro ⟨y, k, hy, hk, hp⟩
    exact ⟨y, ⟨y, rfl, hy⟩, 2 * (k : Int), ⟨k, rfl, hk⟩, hp⟩

theorem pair_reads_bound (width height y k : Nat) (hev : width % 2 = 0)
    (hy : y < height) (hk : 2 * k < width) (hrd : width * height * 2 ≤ 2 ^ 31) (i : Int)
    (hi : i ∈ pair_reads (width : Int) (y : Int) (2 * (k : Int))) :
    0 ≤ i ∧ i < ((width * height * 2 : Nat) : Int) := by
  have h1 : width * (y + 1) ≤ width * height := Nat.mul_le_mul_left _ hy
  rw [Nat.mul_add, Nat.mul_one, Nat.mul_comm width y] at h1
  have hN : (y * width + 2 * k) * 2 + 4 ≤ width * height * 2 := by omega
  have hZ : ((y : Int) * width + 2 * (k : Int)) * 2 + 4 ≤ ((width * height * 2 : Nat) : Int) := by
    exact_mod_cast hN
  have hP : (0 : Int) ≤ (y : Int) * (width : Int) := by positivity
  have e0 : (2 * (k : Int)) = ((2 * k : Nat) : Int) := by push_cast; rfl
  unfold pair_reads at hi
  rw [e0, index_eq width height y (2 * k) 0 (by omega) (by omega) hy (by omega) hrd,
    index_eq width height y (2 * k) 1 (by omega) (by omega) hy (by omega) hrd,
    index_eq width height y (2 * k) 2 (by omega) (by omega) hy (by omega) hrd,
    index_eq width height y (2 * k) 3 (by omega) (by omega) hy (by omega) hrd] at hi
  simp only [List.mem_cons, List.mem_singleton, List.not_mem_nil, or_false] at hi
  push_cast at hi
  rcases hi with e | e | e | e <;> subst e <;> constructor <;> omega

theorem reads_lt (vinfo : fb_var_screeninfo) (fbp : Surface) (data : Frame)
    (width height : Int) (i : Int)
    (hi : i ∈ (display_frame vinfo fbp data width height).reads) : i < 2147483648 := by
  obtain ⟨y, k, _, _, hp⟩ := (mem_reads_iff vinfo fbp data width height i).mp hi
  unfold pair_reads index at hp
  simp only [List.mem_cons, List.mem_singleton, List.not_mem_nil, or_false] at hp
  rcases hp with e | e | e | e <;> rw [e] <;> exact to_int_lt _

/-! ## Theorems: set-up and shutdown -/

theorem client_main_clean (env : ClientEnv) (code : Int) (p : Proc)
    (h : client_main env = .returned code p) : released_exactly_once p = true := by
  obtain ⟨argc, s, i, c, o, z, m, frames⟩ := env
  unfold client_main at h
  by_cases ha : argc < 2 <;> cases s <;> cases i <;> cases c <;> cases o <;> cases m <;>
    cases z <;> simp only [ha, if_true, if_false, Bool.not_true, Bool.not_false] at h <;>
    (try split_ifs at h) <;>
    (cases h; decide)

theorem server_main_early_clean (env : ServerEnv) (p : Proc)
    (h : server_main env = .returned 1 p) : released_exactly_once p = true := by
  obtain ⟨o, v, m, a, s, b, l⟩ := env
  unfold server_main at h
  cases o <;> cases v <;> cases m <;> cases a <;> cases s <;> cases b <;> cases l <;>
    simp only [if_true, if_false, Bool.not_true, Bool.not_false] at h <;>
    first
      | (cases h; decide)
      | (exact absurd h (by simp))
/-! ## The claims on `display_frame` -/

/-- C3. For an even source width, a surface at least as large as the source and
`xres * yres` below `2^31` (no 32-bit wrap), every index `display_frame` writes
through (each `location1` and `location2`, `width * height` of them) is below
`xres * yres`. -/
theorem C3_destination_indices_in_bounds (vinfo : fb_var_screeninfo) (fbp : Surface)
    (data : Frame) (width height : Nat) (hev : width % 2 = 0)
    (hw : width ≤ vinfo.xres) (hh : height ≤ vinfo.yres)
    (hsz : vinfo.xres * vinfo.yres < 2 ^ 31) :
    (∀ p ∈ (display_frame vinfo fbp data width height).writes,
        p.1 < vinfo.xres * vinfo.yres) ∧
    (display_frame vinfo fbp data width height).writes.length = width * height := by
  refine ⟨?_, writes_length_even vinfo fbp data width height hev⟩
  intro p hp
  obtain ⟨x, y, hx, hy, rfl⟩ :=
    (mem_writes_iff vinfo fbp data width height hev hw hh hsz p).mp hp
  exact grid_bound _ _ _ _ (by omega) (by omega)

theorem C3_destination_indices_in_bounds_witness :
    (∀ p ∈ (display_frame ⟨4, 3, 16⟩ (fun _ => 0) (fun i => i.toNat) 2 2).writes, p.1 < 4 * 3) ∧
    (display_frame ⟨4, 3, 16⟩ (fun _ => 0) (fun i => i.toNat) 2 2).writes.length = 2 * 2 :=
  C3_destination_indices_in_bounds ⟨4, 3, 16⟩ (fun _ => 0) (fun i => i.toNat) 2 2
    (by decide) (by decide) (by decide) (by decide)

theorem wrapped_read_pixel (fbp : Surface) :
    (display_frame ⟨46340, 46340, 16⟩ fbp (fun i => if i < 0 then 255 else 0)
        46340 46340).fbp 2147395599 = 0xFBFF := by
  have h := display_frame_cell ⟨46340, 46340, 16⟩ fbp (fun i => if i < 0 then 255 else 0)
    46340 46340 (by decide) (by decide) (by decide) (by decide) 46339 46339
    (by decide) (by decide)
  have hc : cell ⟨46340, 46340, 16⟩ 46340 46340 46339 46339 = 2147395599 := by decide
  have hp : pixel_at (fun i => if i < 0 then 255 else 0) ((46340 : Nat) : Int)
      ((46339 : Nat) : Int) ((46339 : Nat) : Int) = 0xFBFF := by decide
  have e1 : ((46340 : Nat) : Int) = 46340 := rfl
  rw [hc, hp, e1] at h
  exact h

/-- C4, as first stated, fails. On a 131072x65536 surface with a 2x2 source the
index `(0 + 65535) + (1 + 32767) * 131072` of source pixel `(0, 1)` is
`65535 + 2^32`; the 32-bit sum wraps, the word goes to cell 65535 and the cell
of the claim keeps its old value 7 instead of the word 0x0420.  On a
46340x46340 surface with a 46340x46340 source the `int` byte index of pixel
`(46339, 46339)` wraps below 0, so its cell holds 0xFBFF, the word of the bytes
in front of the frame, instead of the word 0x0420 of the bytes of the pixel. -/
theorem C4_wrapping_surface_misplaces_pixel :
    ((2 % 2 = 0 ∧ 2 ≤ 131072 ∧ 2 ≤ 65536) ∧
      (display_frame ⟨131072, 65536, 16⟩ (fun _ => 7) (fun _ => 0) 2 2).fbp
          ((0 + (131072 - 2) / 2) + (1 + (65536 - 2) / 2) * 131072) = 7 ∧
      spec_word ((fun _ => 0 : Frame) ((1 * 2 + 0) * 2) % 256)
          ((fun _ => 0 : Frame) ((1 * 2 + (0 - 0 % 2)) * 2 + 1) % 256)
          ((fun _ => 0 : Frame) ((1 * 2 + (0 - 0 % 2)) * 2 + 3) % 256) = 0x0420 ∧
      (display_frame ⟨131072, 65536, 16⟩ (fun _ => 7) (fun _ => 0) 2 2).fbp 65535 = 0x0420) ∧
    ((46340 % 2 = 0 ∧ 46340 * 46340 < 2 ^ 31) ∧
      (display_frame ⟨46340, 46340, 16⟩ (fun _ => 7) (fun i => if i < 0 then 255 else 0)
          46340 46340).fbp
          ((46339 + (46340 - 46340) / 2) + (46339 + (46340 - 46340) / 2) * 46340) = 0xFBFF ∧
      spec_word ((fun i => if i < 0 then 255 else 0 : Frame) ((46339 * 46340 + 46339) * 2) % 256)
          ((fun i => if i < 0 then 255 else 0 : Frame)
            ((46339 * 46340 + (46339 - 46339 % 2)) * 2 + 1) % 256)
          ((fun i => if i < 0 then 255 else 0 : Frame)
            ((46339 * 46340 + (46339 - 46339 % 2)) * 2 + 3) % 256) = 0x0420) := by
  refine ⟨by decide, by decide, ?_, by decide⟩
  have hc : (46339 + (46340 - 46340) / 2) + (46339 + (46340 - 46340) / 2) * 46340
      = 2147395599 := by decide
  rw [hc]
  exact wrapped_read_pixel _

/-- C4, amended. For an even width, a surface at least as large as the source,
`xres * yres` below `2^31` and `width * height * 2` at most `2^31` (so that no
32-bit index wraps), after `display_frame` the cell at index
`(x + x_off) + (y + y_off) * xres` holds, for every source pixel `(x, y)`, the
word `((R >> 3) << 11) | ((G >> 2) << 5) | (B >> 3)` of the specification,
computed from the pixel's own luma byte and bytes 1 and 3 of its 4-byte group;
for an 800x480 surface and a 640x480 source the offsets are 80 and 0 and pixel
`(0, 0)` lands at index 80. -/
theorem C4_display_frame_pixel_words (vinfo : fb_var_screeninfo) (fbp : Surface)
    (data : Frame) (width height : Nat) (hev : width % 2 = 0)
    (hw : width ≤ vinfo.xres) (hh : height ≤ vinfo.yres)
    (hsz : vinfo.xres * vinfo.yres < 2 ^ 31) (hrd : width * height * 2 ≤ 2 ^ 31) :
    (∀ x y : Nat, x < width → y < height →
      (display_frame vinfo fbp data width height).fbp
          ((x + (vinfo.xres - width) / 2) + (y + (vinfo.yres - height) / 2) * vinfo.xres)
        = spec_word (data (((y : Int) * width + x) * 2) % 256)
            (data (((y : Int) * width + ((x : Int) - (x : Int) % 2)) * 2 + 1) % 256)
            (data (((y : Int) * width + ((x : Int) - (x : Int) % 2)) * 2 + 3) % 256)) ∧
    x_offset ⟨800, 480, 16⟩ 640 = 80 ∧ y_offset ⟨800, 480, 16⟩ 480 = 0 ∧
    location1 ⟨800, 480, 16⟩ 80 0 0 0 = 80 := by
  refine ⟨?_, by decide, by decide, by decide⟩
  intro x y hx hy
  have h := display_frame_cell vinfo fbp data width height hev hw hh hsz x y hx hy
  rw [pixel_at_eq_spec data width height x y hev hx hy hrd] at h
  exact h

theorem C4_display_frame_pixel_words_witness :
    (2 % 2 = 0 ∧ 2 ≤ 4 ∧ 2 ≤ 3 ∧ 4 * 3 < 2 ^ 31 ∧ 2 * 2 * 2 ≤ 2 ^ 31) ∧
    (∀ x y : Nat, x < 2 → y < 2 →
      (display_frame ⟨4, 3, 16⟩ (fun _ => 0) (fun i => 16 * i.toNat) 2 2).fbp
          ((x + (4 - 2) / 2) + (y + (3 - 2) / 2) * 4)
        = spec_word ((fun i => 16 * i.toNat : Frame) (((y : Int) * 2 + x) * 2) % 256)
            ((fun i => 16 * i.toNat : Frame)
              (((y : Int) * 2 + ((x : Int) - (x : Int) % 2)) * 2 + 1) % 256)
            ((fun i => 16 * i.toNat : Frame)
              (((y : Int) * 2 + ((x : Int) - (x : Int) % 2)) * 2 + 3) % 256)) ∧
    x_offset ⟨800, 480, 16⟩ 640 = 80 ∧ y_offset ⟨800, 480, 16⟩ 480 = 0 ∧
    location1 ⟨800, 480, 16⟩ 80 0 0 0 = 80 :=
  ⟨by decide,
   C4_display_frame_pixel_words ⟨4, 3, 16⟩ (fun _ => 0) (fun i => 16 * i.toNat) 2 2
    (by decide) (by decide) (by decide) (by decide) (by decide)⟩

/-- C5. The conversion maps the quadruple (16, 128, 16, 128) to channels
(0, 0, 0) and word 0x0000 for both pixels of the pair, and the quadruple
(235, 128, 235, 128) to channels (255, 255, 255) and word 0xFFFF for both. -/
theorem C5_conversion_boundary :
    channels 16 128 128 = (0, 0, 0) ∧ pixel 16 128 128 = 0x0000 ∧
    (blit_pair ⟨2, 1, 16⟩ (fun i => if i = 0 ∨ i = 2 then 16 else 128) 2 0 0
        ⟨fun _ => 7, [], []⟩ 0 0).writes = [(0, 0x0000), (1, 0x0000)] ∧
    channels 235 128 128 = (255, 255, 255) ∧ pixel 235 128 128 = 0xFFFF ∧
    (blit_pair ⟨2, 1, 16⟩ (fun i => if i = 0 ∨ i = 2 then 235 else 128) 2 0 0
        ⟨fun _ => 7, [], []⟩ 0 0).writes = [(0, 0xFFFF), (1, 0xFFFF)] := by
  decide

theorem zero_frame_pixel (data : Frame) (width height x y : Nat) (hev : width % 2 = 0)
    (hx : x < width) (hy : y < height) (hrd : width * height * 2 ≤ 2 ^ 31)
    (hz : ∀ i : Int, 0 ≤ i → i < ((width * height * 2 : Nat) : Int) → data i = 0) :
    pixel_at data width x y = 0x0420 := by
  have h1 : (y + 1) * width ≤ height * width := Nat.mul_le_mul_right _ hy
  have h2 : ((y : Int) + 1) * (width : Int) ≤ (height : Int) * (width : Int) := by
    exact_mod_cast h1
  have h3 : (0 : Int) ≤ (y : Int) * (width : Int) := by positivity
  have h4 : (x : Int) - (x : Int) % 2 + 2 ≤ (width : Int) := by omega
  have h5 : (0 : Int) ≤ (x : Int) - (x : Int) % 2 := by omega
  have h6 : (x : Int) + 1 ≤ (width : Int) := by omega
  have h7 : (0 : Int) ≤ (x : Int) := by positivity
  have a1 : data (((y : Int) * width + x) * 2) = 0 :=
    hz _ (by nlinarith) (by push_cast; nlinarith)
  have a2 : data (((y : Int) * width + ((x : Int) - (x : Int) % 2)) * 2 + 1) = 0 :=
    hz _ (by nlinarith) (by push_cast; nlinarith)
  have a3 : data (((y : Int) * width + ((x : Int) - (x : Int) % 2)) * 2 + 3) = 0 :=
    hz _ (by nlinarith) (by push_cast; nlinarith)
  rw [pixel_at_eq_spec data width height x y hev hx hy hrd, a1, a2, a3]
  decide

/-- C6, as first stated, fails: for an all-zero 640x480 frame on an 800x480
surface the cell of source pixel `(0, 0)` holds 0x0420, not 0x0000.  Nor is the
rectangle uniform once a 32-bit index wraps: on a 131072x65536 surface with an
all-zero 2x2 frame the cell of pixel `(0, 1)` keeps its old value 7, and for an
all-zero 46340x46340 frame the cell of pixel `(46339, 46339)` holds 0xFBFF, the
word of the bytes in front of the frame. -/
theorem C6_zero_frame_is_not_black :
    ((display_frame ⟨800, 480, 16⟩ (fun _ => 0) (fun _ => 0) 640 480).fbp 80 = 0x0420 ∧
      ¬ ((display_frame ⟨800, 480, 16⟩ (fun _ => 0) (fun _ => 0) 640 480).fbp 80 = 0x0000)) ∧
    (display_frame ⟨131072, 65536, 16⟩ (fun _ => 7) (fun _ => 0) 2 2).fbp
        ((0 + (131072 - 2) / 2) + (1 + (65536 - 2) / 2) * 131072) = 7 ∧
    ((∀ i : Int, 0 ≤ i → (fun i => if i < 0 then 255 else 0 : Frame) i = 0) ∧
      (display_frame ⟨46340, 46340, 16⟩ (fun _ => 7) (fun i => if i < 0 then 255 else 0)
          46340 46340).fbp
          ((46339 + (46340 - 46340) / 2) + (46339 + (46340 - 46340) / 2) * 46340) = 0xFBFF) := by
  have h := display_frame_cell ⟨800, 480, 16⟩ (fun _ => 0) (fun _ => 0) 640 480
    (by decide) (by decide) (by decide) (by decide) 0 0 (by decide) (by decide)
  have hc : cell ⟨800, 480, 16⟩ 640 480 0 0 = 80 := by decide
  have hp : pixel_at (fun _ => 0) ((640 : Nat) : Int) ((0 : Nat) : Int) ((0 : Nat) : Int)
      = 0x0420 :=
    zero_frame_pixel (fun _ => 0) 640 480 0 0 (by decide) (by decide) (by decide)
      (by decide) (fun _ _ _ => rfl)
  have e1 : ((640 : Nat) : Int) = 640 := rfl
  have e2 : ((480 : Nat) : Int) = 480 := rfl
  rw [hc, hp, e1, e2] at h
  refine ⟨⟨h, ?_⟩, by decide, ?_, ?_⟩
  · rw [h]
    decide
  · intro i hi
    have : ¬ i < 0 := by omega
    simp [this]
  · have hc2 : (46339 + (46340 - 46340) / 2) + (46339 + (46340 - 46340) / 2) * 46340
        = 2147395599 := by decide
    rw [hc2]
    exact wrapped_read_pixel _

/-- C6, amended. For a frame whose `width * height * 2` bytes are all zero (even
width, surface at least as large as the source, `xres * yres` below `2^31` and
`width * height * 2` at most `2^31`, so that no 32-bit index wraps), every cell
of the centred destination rectangle holds the word 0x0420, the packing of the
channels (0, 135, 0), after `display_frame`. -/
theorem C6_zero_frame_uniform (vinfo : fb_var_screeninfo) (fbp : Surface)
    (data : Frame) (width height : Nat) (hev : width % 2 = 0)
    (hw : width ≤ vinfo.xres) (hh : height ≤ vinfo.yres)
    (hsz : vinfo.xres * vinfo.yres < 2 ^ 31) (hrd : width * height * 2 ≤ 2 ^ 31)
    (hz : ∀ i : Int, 0 ≤ i → i < ((width * height * 2 : Nat) : Int) → data i = 0) :
    channels 0 0 0 = (0, 135, 0) ∧
    ∀ x y : Nat, x < width → y < height →
      (display_frame vinfo fbp data width height).fbp
          ((x + (vinfo.xres - width) / 2) + (y + (vinfo.yres - height) / 2) * vinfo.xres)
        = 0x0420 := by
  refine ⟨by decide, ?_⟩
  intro x y hx hy
  have h := display_frame_cell vinfo fbp data width height hev hw hh hsz x y hx hy
  rw [zero_frame_pixel data width height x y hev hx hy hrd hz] at h
  exact h

theorem C6_zero_frame_uniform_witness :
    (2 % 2 = 0 ∧ 2 ≤ 4 ∧ 2 ≤ 3 ∧ 4 * 3 < 2 ^ 31 ∧ 2 * 2 * 2 ≤ 2 ^ 31) ∧
    (∀ i : Int, 0 ≤ i → i < ((2 * 2 * 2 : Nat) : Int) → (fun _ => 0 : Frame) i = 0) ∧
    (display_frame ⟨4, 3, 16⟩ (fun _ => 9) (fun _ => 0) 2 2).fbp
        ((1 + (4 - 2) / 2) + (1 + (3 - 2) / 2) * 4) = 0x0420 :=
  ⟨by decide, fun _ _ _ => rfl,
   (C6_zero_frame_uniform ⟨4, 3, 16⟩ (fun _ => 9) (fun _ => 0) 2 2
    (by decide) (by decide) (by decide) (by decide) (by decide) (fun _ _ _ => rfl)).2 1 1
      (by decide) (by decide)⟩

/-- C7, as first stated, fails: on a 131072x65536 surface with a 2x2 source,
cell 65535 is the cell of no source pixel, yet `display_frame` overwrites its
value 7 with the word 0x0420, because the index of pixel `(0, 1)`,
`65535 + 2^32`, wraps to 65535. -/
theorem C7_wrapping_surface_overwrites_outside :
    (2 % 2 = 0 ∧ 2 ≤ 131072 ∧ 2 ≤ 65536) ∧
    (∀ x y : Nat, x < 2 → y < 2 →
      65535 ≠ (x + (131072 - 2) / 2) + (y + (65536 - 2) / 2) * 131072) ∧
    (fun _ => 7 : Surface) 65535 = 7 ∧
    (display_frame ⟨131072, 65536, 16⟩ (fun _ => 7) (fun _ => 0) 2 2).fbp 65535 = 0x0420 :=
  ⟨by decide, fun x y _ _ => by omega, rfl, by decide⟩

/-- C7, amended. For an even width and a surface at least as large as the source
with `xres * yres` below `2^31` (so that no 32-bit index wraps), `display_frame`
leaves unchanged every cell whose index is not `(x + x_off) + (y + y_off) * xres`
for a source pixel `(x, y)`. -/
theorem C7_outside_rectangle_unchanged (vinfo : fb_var_screeninfo) (fbp : Surface)
    (data : Frame) (width height : Nat) (hev : width % 2 = 0)
    (hw : width ≤ vinfo.xres) (hh : height ≤ vinfo.yres)
    (hsz : vinfo.xres * vinfo.yres < 2 ^ 31) (i : Nat)
    (hi : ∀ x y : Nat, x < width → y < height →
      i ≠ (x + (vinfo.xres - width) / 2) + (y + (vinfo.yres - height) / 2) * vinfo.xres) :
    (display_frame vinfo fbp data width height).fbp i = fbp i :=
  display_frame_frame vinfo fbp data width height hev hw hh hsz i hi

theorem C7_outside_rectangle_unchanged_witness :
    (∀ x y : Nat, x < 2 → y < 2 → 0 ≠ (x + (4 - 2) / 2) + (y + (3 - 2) / 2) * 4) ∧
    (display_frame ⟨4, 3, 16⟩ (fun _ => 9) (fun _ => 0) 2 2).fbp 0 = (fun _ => 9 : Surface) 0 :=
  ⟨fun x y _ _ => by omega,
   C7_outside_rectangle_unchanged ⟨4, 3, 16⟩ (fun _ => 9) (fun _ => 0) 2 2
    (by decide) (by decide) (by decide) (by decide) 0
    (fun x y _ _ => by
      show 0 ≠ (x + (4 - 2) / 2) + (y + (3 - 2) / 2) * 4
      omega)⟩

/-- C10, as first stated, fails: for a 46340x46340 frame the `int` index
`(46339 * 46340 + 46338) * 2 + 3` exceeds `INT_MAX` and wraps, so the byte at
index -176097 is read and the index `width * height * 2 - 1 = 4294791199` is
not. -/
theorem C10_read_index_wraps :
    46340 % 2 = 0 ∧
    (-176097 : Int)
      ∈ (display_frame ⟨46340, 46340, 16⟩ (fun _ => 0) (fun _ => 0) 46340 46340).reads ∧
    ((46340 * 46340 * 2 : Nat) : Int) - 1
      ∉ (display_frame ⟨46340, 46340, 16⟩ (fun _ => 0) (fun _ => 0) 46340 46340).reads := by
  refine ⟨by decide, ?_, ?_⟩
  · rw [mem_reads_iff]
    exact ⟨46339, 23169, by decide, by decide, by decide⟩
  · intro h
    have hlt := reads_lt _ _ _ _ _ _ h
    revert hlt
    decide

/-- C10, amended. For an even width and a height with `width * height * 2` at
most `2^31` (so that the `int` index does not wrap), every byte index
`display_frame` reads from `data` is at least 0 and below `width * height * 2`;
when the frame is not empty the index `width * height * 2 - 1` is read, and an
empty frame is not read at all. -/
theorem C10_reads_within_frame (vinfo : fb_var_screeninfo) (fbp : Surface)
    (data : Frame) (width height : Nat) (hev : width % 2 = 0)
    (hrd : width * height * 2 ≤ 2 ^ 31) :
    (∀ i ∈ (display_frame vinfo fbp data width height).reads,
        0 ≤ i ∧ i < ((width * height * 2 : Nat) : Int)) ∧
    (0 < width → 0 < height →
        ((width * height * 2 : Nat) : Int) - 1
          ∈ (display_frame vinfo fbp data width height).reads) ∧
    (width = 0 ∨ height = 0 → (display_frame vinfo fbp data width height).reads = []) := by
  refine ⟨?_, ?_, ?_⟩
  · intro i hi
    obtain ⟨y, k, hy, hk, hp⟩ := (mem_reads_iff vinfo fbp data width height i).mp hi
    exact pair_reads_bound width height y k hev (by omega) (by omega) hrd i hp
  · intro hw0 hh0
    rw [mem_reads_iff]
    refine ⟨height - 1, width / 2 - 1, by omega, by omega, ?_⟩
    have e0 : (2 * ((width / 2 - 1 : Nat) : Int)) = ((2 * (width / 2 - 1) : Nat) : Int) := by
      push_cast; rfl
    have i3 := index_eq width height (height - 1) (2 * (width / 2 - 1)) 3 (by omega) (by omega)
      (by omega) (by omega) hrd
    have e : ((width * height * 2 : Nat) : Int) - 1
        = (((height - 1 : Nat) : Int) * width + ((2 * (width / 2 - 1) : Nat) : Int)) * 2 + 3 := by
      have e1 : ((height - 1 : Nat) : Int) = (height : Int) - 1 := by omega
      have e2 : ((2 * (width / 2 - 1) : Nat) : Int) = (width : Int) - 2 := by omega
      rw [e1, e2]
      push_cast
      ring
    unfold pair_reads
    rw [e0, i3, e]
    simp
  · intro h0
    apply List.eq_nil_iff_forall_not_mem.mpr
    intro i hi
    obtain ⟨y, k, hy, hk, _⟩ := (mem_reads_iff vinfo fbp data width height i).mp hi
    omega

theorem C10_reads_within_frame_witness :
    (2 % 2 = 0 ∧ 2 * 2 * 2 ≤ 2 ^ 31) ∧
    (∀ i ∈ (display_frame ⟨4, 3, 16⟩ (fun _ => 9) (fun _ => 0) 2 2).reads,
        0 ≤ i ∧ i < ((2 * 2 * 2 : Nat) : Int)) ∧
    (0 < 2 → 0 < 2 →
        ((2 * 2 * 2 : Nat) : Int) - 1
          ∈ (display_frame ⟨4, 3, 16⟩ (fun _ => 9) (fun _ => 0) 2 2).reads) ∧
    ((2 : Nat) = 0 ∨ (2 : Nat) = 0 →
        (display_frame ⟨4, 3, 16⟩ (fun _ => 9) (fun _ => 0) 2 2).reads = []) :=
  ⟨by decide,
   C10_reads_within_frame ⟨4, 3, 16⟩ (fun _ => 9) (fun _ => 0) 2 2 (by decide) (by decide)⟩

/-! ## The claims on `main` -/

/-- C9 fails on the server: when `open`, `ioctl`, `mmap` and `malloc` succeed and
`socket` fails, `main` returns -1 with the descriptor, the mapping and the buffer
still held; when `bind` or `listen` fails it returns -1 with these and the
listening socket still held. -/
theorem C9_server_main_leaks_on_socket_errors :
    server_main ⟨true, some ⟨800, 480, 16⟩, true, true, false, true, true⟩
      = .returned (-1) ⟨[.fb_fd, .fbp, .buffer], []⟩ ∧
    leaked ⟨[.fb_fd, .fbp, .buffer], []⟩ = [.fb_fd, .fbp, .buffer] ∧
    released_exactly_once ⟨[.fb_fd, .fbp, .buffer], []⟩ = false ∧
    server_main ⟨true, some ⟨800, 480, 16⟩, true, true, true, false, true⟩
      = .returned (-1) ⟨[.fb_fd, .fbp, .buffer, .listen_sock], []⟩ ∧
    server_main ⟨true, some ⟨800, 480, 16⟩, true, true, true, true, false⟩
      = .returned (-1) ⟨[.fb_fd, .fbp, .buffer, .listen_sock], []⟩ ∧
    leaked ⟨[.fb_fd, .fbp, .buffer, .listen_sock], []⟩
      = [.fb_fd, .fbp, .buffer, .listen_sock] := by
  decide

end V4l2Stream
